import Mathlib

/-!
Shallow embedding of `src/main.py` (container-retention-policy): a utility
that deletes stale container-image versions from a registry.  Python
datetimes are modelled as a naive clock value plus an optional UTC offset;
comparing a naive datetime with an aware one raises `TypeError` in Python,
which the embedding models as an `Except.error`.  The external collaborators
(`dateparser.parse`, the HTTP client) are parameters of the definitions.
-/

namespace ContainerRetention

/-- Model of a Python `datetime`: `time` is the naive clock reading (in
abstract units since an epoch) and `offset` is the UTC offset carried by
`tzinfo` (`none` models a timezone-naive datetime, i.e. `tzinfo is None`
or `utcoffset(...) is None`). -/
structure Datetime where
  time : Int
  offset : Option Int
deriving DecidableEq, Repr

/-- The absolute instant an aware datetime denotes (naive datetimes have no
well-defined instant; `getD 0` is only used when `offset` is present). -/
def Datetime.instant (d : Datetime) : Int := d.time - d.offset.getD 0

/-- Python `a < b` on datetimes: aware datetimes compare by UTC instant,
naive ones by clock value, and mixing naive with aware raises `TypeError`
(modelled by `Except.error ()`). -/
def dtLt (a b : Datetime) : Except Unit Bool :=
  match a.offset, b.offset with
  | none, none => Except.ok (decide (a.time < b.time))
  | some oa, some ob => Except.ok (decide (a.time - oa < b.time - ob))
  | _, _ => Except.error ()

/-- `class TimestampType(Enum)` of `src/main.py`. -/
inductive TimestampType where
  | updated_at
  | created_at
deriving DecidableEq, Repr

/-- `TimestampType(s)`: Python enum lookup by value, `ValueError` on
unknown values is modelled by `none`. -/
def TimestampType.fromStr (s : String) : Option TimestampType :=
  if s = "updated_at" then some TimestampType.updated_at
  else if s = "created_at" then some TimestampType.created_at
  else none

/-- `class AccountType(Enum)` of `src/main.py`. -/
inductive AccountType where
  | org
  | personal
deriving DecidableEq, Repr

/-- `AccountType(s)`: Python enum lookup by value. -/
def AccountType.fromStr (s : String) : Option AccountType :=
  if s = "org" then some AccountType.org
  else if s = "personal" then some AccountType.personal
  else none

/-- `@dataclass class Inputs` of `src/main.py`: the validated configuration. -/
structure Inputs where
  parsed_cutoff : Datetime
  timestamp_type : TimestampType
  account_type : AccountType
  org_name : Option String := none
deriving DecidableEq, Repr

/-- `Inputs.is_org`. -/
def Inputs.is_org (i : Inputs) : Bool := decide (i.account_type = AccountType.org)

/-- The distinct `ValueError`s `validate_inputs` can raise, plus the enum
lookup failures raised while constructing `Inputs`. -/
inductive ValidationError where
  | invalidCutoff
  | missingTimezone
  | missingOrgName
  | invalidEnumValue
deriving DecidableEq, Repr

/-- `validate_inputs` of `src/main.py`, parametrised by the timestamp
resolver `parse` (the `dateparser.parse` collaborator).  The checks appear
in source order: cutoff parse, timezone presence, org-name requirement,
then the enum conversions in the order the `Inputs(...)` keyword arguments
are evaluated (`timestamp_type` before `account_type`). -/
def validate_inputs (parse : String → Option Datetime)
    (account_type org_name timestamp_type cut_off : String) :
    Except ValidationError Inputs :=
  match parse cut_off with
  | none => Except.error ValidationError.invalidCutoff
  | some parsed_cutoff =>
    if parsed_cutoff.offset.isNone then
      Except.error ValidationError.missingTimezone
    else if account_type = "org" ∧ org_name = "" then
      Except.error ValidationError.missingOrgName
    else
      match TimestampType.fromStr timestamp_type with
      | none => Except.error ValidationError.invalidEnumValue
      | some tt =>
        match AccountType.fromStr account_type with
        | none => Except.error ValidationError.invalidEnumValue
        | some at_ =>
          Except.ok
            { parsed_cutoff := parsed_cutoff
              timestamp_type := tt
              account_type := at_
              org_name := if account_type = "org" then some org_name else none }

/-- A version record returned by the registry listing: the fields of the
JSON object `get_and_delete_old_versions` reads (`id`, `updated_at`,
`created_at`); the timestamp fields are raw strings, resolved by `parse`. -/
structure VersionRecord where
  id : Nat
  updated_at : String
  created_at : String
deriving DecidableEq, Repr

/-- `version[inputs.timestamp_type.value]`: the timestamp field selected by
the configured `TimestampType`. -/
def selectField (t : TimestampType) (v : VersionRecord) : String :=
  match t with
  | TimestampType.updated_at => v.updated_at
  | TimestampType.created_at => v.created_at

/-- Runtime failures of one image's processing: the `TypeError` raised by a
naive/aware datetime comparison, or a non-2xx listing response
(`response.raise_for_status()`). -/
inductive ProcError where
  | compareTypeError
  | listRequestFailed
deriving DecidableEq, Repr

/-- Observable outcome of `get_and_delete_old_versions` for one image:
`skipped` are the version ids printed in "Skipping image version …"
diagnostics, `scheduled` are the version ids for which a deletion task was
created (in source order), and `error` is the abort, if any, that
interrupted processing.  Ids scheduled before an abort remain scheduled:
their tasks were already created. -/
structure FilterResult where
  skipped : List Nat
  scheduled : List Nat
  error : Option ProcError
deriving DecidableEq, Repr

/-- The `for version in versions` loop of `get_and_delete_old_versions`:
resolve the selected timestamp field; on resolution failure skip the record
with a diagnostic; otherwise compare with the cutoff (a naive/aware mix
raises, aborting the loop) and schedule a deletion task when strictly
earlier. -/
def filterVersions (parse : String → Option Datetime) (inputs : Inputs) :
    List VersionRecord → FilterResult
  | [] => ⟨[], [], none⟩
  | v :: vs =>
    match parse (selectField inputs.timestamp_type v) with
    | none =>
      let r := filterVersions parse inputs vs
      ⟨v.id :: r.skipped, r.scheduled, r.error⟩
    | some t =>
      match dtLt t inputs.parsed_cutoff with
      | Except.error _ => ⟨[], [], some ProcError.compareTypeError⟩
      | Except.ok true =>
        let r := filterVersions parse inputs vs
        ⟨r.skipped, v.id :: r.scheduled, r.error⟩
      | Except.ok false => filterVersions parse inputs vs

/-- `get_and_delete_old_versions` of `src/main.py` for one image, given the
outcome of its `list_package_versions` call (`Except.error` models a
non-2xx response, whose `raise_for_status` aborts before the loop). -/
def get_and_delete_old_versions (parse : String → Option Datetime)
    (inputs : Inputs) (listResult : Except Unit (List VersionRecord)) :
    FilterResult :=
  match listResult with
  | Except.error _ => ⟨[], [], some ProcError.listRequestFailed⟩
  | Except.ok versions => filterVersions parse inputs versions

/-- The record's selected field fails to resolve (`parse` returned `None`),
triggering the skip diagnostic. -/
def unparseableB (parse : String → Option Datetime) (inputs : Inputs)
    (v : VersionRecord) : Bool :=
  (parse (selectField inputs.timestamp_type v)).isNone

/-- The record resolves and compares strictly earlier than the cutoff,
i.e. a deletion task is created for it. -/
def staleB (parse : String → Option Datetime) (inputs : Inputs)
    (v : VersionRecord) : Bool :=
  match parse (selectField inputs.timestamp_type v) with
  | none => false
  | some t =>
    match dtLt t inputs.parsed_cutoff with
    | Except.ok b => b
    | Except.error _ => false

/-- A record whose processing cannot raise against an aware cutoff: its
field either fails to resolve or resolves to an aware datetime (the
Timestamp Resolver contract of the spec). -/
def goodRecord (parse : String → Option Datetime) (inputs : Inputs)
    (v : VersionRecord) : Prop :=
  parse (selectField inputs.timestamp_type v) = none ∨
    ∃ t, parse (selectField inputs.timestamp_type v) = some t ∧ t.offset.isSome

/-- `ImageName = namedtuple('ImageName', ['value', 'encoded'])`: the raw
(stripped) name and its percent-encoded form, both kept as character
lists (the `value` side of the Python string, the `encoded` side of the
URL path segment). -/
structure ImageName where
  value : List Char
  encoded : List Char
deriving DecidableEq, Repr

/-- Python `s.split(',')`: always at least one segment; an empty input
yields one empty segment. -/
def splitCommas : List Char → List (List Char)
  | [] => [[]]
  | c :: rest =>
    if c = ',' then [] :: splitCommas rest
    else
      match splitCommas rest with
      | [] => [[c]]
      | seg :: segs => (c :: seg) :: segs

/-- The characters stripped by Python `str.strip()` (exactly those with
`str.isspace()` true): `\t\n\v\f\r`, `\x1c`-`\x1f`, space, `\x85`, `\xa0`,
U+1680, U+2000-U+200A, U+2028, U+2029, U+202F, U+205F and U+3000. -/
def isPySpace (c : Char) : Bool :=
  decide (c.toNat = 32 ∨ (9 ≤ c.toNat ∧ c.toNat ≤ 13) ∨
    (28 ≤ c.toNat ∧ c.toNat ≤ 31) ∨ c.toNat = 133 ∨ c.toNat = 160 ∨
    c.toNat = 5760 ∨ (8192 ≤ c.toNat ∧ c.toNat ≤ 8202) ∨ c.toNat = 8232 ∨
    c.toNat = 8233 ∨ c.toNat = 8239 ∨ c.toNat = 8287 ∨ c.toNat = 12288)

/-- Python `s.strip()` on a character list. -/
def trimChars (cs : List Char) : List Char :=
  ((cs.dropWhile isPySpace).reverse.dropWhile isPySpace).reverse

/-- UTF-8 encoding of one character (`str.encode('utf-8')`, per code
point). -/
def utf8EncodeChar (c : Char) : List Nat :=
  let n := c.toNat
  if n < 128 then [n]
  else if n < 2048 then [192 + n / 64, 128 + n % 64]
  else if n < 65536 then [224 + n / 4096, 128 + n / 64 % 64, 128 + n % 64]
  else [240 + n / 262144, 128 + n / 4096 % 64, 128 + n / 64 % 64, 128 + n % 64]

/-- `s.encode('utf-8')` as a byte list. -/
def utf8Bytes (cs : List Char) : List Nat := (cs.map utf8EncodeChar).flatten

/-- The bytes `urllib.parse.quote_from_bytes` never percent-encodes, even
with `safe=''`: ASCII letters, digits and `_.-~` (urllib's unreserved
set). -/
def isAlwaysSafe (b : Nat) : Bool :=
  decide (65 ≤ b ∧ b ≤ 90 ∨ 97 ≤ b ∧ b ≤ 122 ∨ 48 ≤ b ∧ b ≤ 57 ∨
    b = 95 ∨ b = 46 ∨ b = 45 ∨ b = 126)

/-- Upper-case hexadecimal digit, as used by `quote_from_bytes`. -/
def hexUpper (n : Nat) : Char :=
  if n < 10 then Char.ofNat (48 + n) else Char.ofNat (55 + n)

/-- One byte's image under `quote_from_bytes(bs, safe='')`. -/
def quoteByte (b : Nat) : List Char :=
  if isAlwaysSafe b then [Char.ofNat b] else ['%', hexUpper (b / 16), hexUpper (b % 16)]

/-- `urllib.parse.quote_from_bytes(bs, safe='')`. -/
def quote_from_bytes (bs : List Nat) : List Char := (bs.map quoteByte).flatten

/-- Value of one hexadecimal digit character, if any. -/
def hexVal (c : Char) : Option Nat :=
  if 48 ≤ c.toNat ∧ c.toNat ≤ 57 then some (c.toNat - 48)
  else if 65 ≤ c.toNat ∧ c.toNat ≤ 70 then some (c.toNat - 55)
  else if 97 ≤ c.toNat ∧ c.toNat ≤ 102 then some (c.toNat - 87)
  else none

/-- Percent-decoding (`urllib.parse.unquote_to_bytes`): a `%` followed by
two hex digits decodes to one byte; anything else passes through as its
code point. -/
def unquote_to_bytes : List Char → List Nat
  | [] => []
  | [c] => [c.toNat]
  | [c, d] => c.toNat :: unquote_to_bytes [d]
  | c :: d :: e :: rest =>
    if c = '%' then
      match hexVal d, hexVal e with
      | some a, some b => (16 * a + b) :: unquote_to_bytes rest
      | _, _ => c.toNat :: unquote_to_bytes (d :: e :: rest)
    else c.toNat :: unquote_to_bytes (d :: e :: rest)

/-- `parse_image_names` of `src/main.py`: split the raw input on commas,
strip each segment, and keep the raw value together with the
percent-encoding of its UTF-8 bytes. -/
def parse_image_names (image_names : List Char) : List ImageName :=
  (splitCommas image_names).map fun img_name =>
    ⟨trimChars img_name, quote_from_bytes (utf8Bytes (trimChars img_name))⟩

/-- A registry request issued during a run: a version listing or a version
deletion, tagged with the image it targets. -/
inductive RegistryOp where
  | list (image : ImageName)
  | delete (image : ImageName) (versionId : Nat)
deriving DecidableEq, Repr

/-- The batch (`asyncio.gather` over `get_and_delete_old_versions` tasks in
`main`): one task per parsed image, each a function of that image's own
listing outcome only. -/
def run_batch (parse : String → Option Datetime) (inputs : Inputs)
    (images : List ImageName)
    (listings : ImageName → Except Unit (List VersionRecord)) :
    List (ImageName × FilterResult) :=
  images.map fun img => (img, get_and_delete_old_versions parse inputs (listings img))

/-- Registry requests issued by a completed batch: each image's listing
request followed by the deletion requests of its scheduled tasks. -/
def batchOps (results : List (ImageName × FilterResult)) : List RegistryOp :=
  (results.map fun pr =>
    RegistryOp.list pr.1 :: pr.2.scheduled.map (RegistryOp.delete pr.1)).flatten

/-- `main` of `src/main.py`: parse the image names, validate the inputs
(any `ValueError` propagates before the HTTP client is opened and before
any task is created), then run the per-image batch. -/
def main (parse : String → Option Datetime)
    (listings : ImageName → Except Unit (List VersionRecord))
    (account_type org_name image_names timestamp_type cut_off : String) :
    Except ValidationError (List (ImageName × FilterResult)) :=
  let parsed_image_names := parse_image_names image_names.data
  match validate_inputs parse account_type org_name timestamp_type cut_off with
  | Except.error e => Except.error e
  | Except.ok inputs => Except.ok (run_batch parse inputs parsed_image_names listings)

/-- The registry requests a run of `main` issues: none when validation
fails (the `AsyncClient` block is never entered), otherwise those of the
batch. -/
def mainOps (parse : String → Option Datetime)
    (listings : ImageName → Except Unit (List VersionRecord))
    (account_type org_name image_names timestamp_type cut_off : String) :
    List RegistryOp :=
  match main parse listings account_type org_name image_names timestamp_type cut_off with
  | Except.error _ => []
  | Except.ok results => batchOps results

/-! ## Helper lemmas -/

theorem AccountType.fromStr_eq_org {s : String}
    (h : AccountType.fromStr s = some AccountType.org) : s = "org" := by
  by_cases h1 : s = "org"
  · exact h1
  · by_cases h2 : s = "personal" <;> simp [AccountType.fromStr, h1, h2] at h

theorem dtLt_aware (a b : Datetime) (oa ob : Int)
    (ha : a.offset = some oa) (hb : b.offset = some ob) :
    dtLt a b = Except.ok (decide (a.instant < b.instant)) := by
  simp [dtLt, ha, hb, Datetime.instant]

theorem dtLt_naive_aware (a b : Datetime)
    (ha : a.offset = none) (hb : b.offset.isSome) :
    dtLt a b = Except.error () := by
  obtain ⟨ob, hob⟩ := Option.isSome_iff_exists.mp hb
  simp [dtLt, ha, hob]

theorem staleB_eq (parse : String → Option Datetime) (inputs : Inputs)
    (v : VersionRecord) (t : Datetime) (ot oc : Int)
    (hp : parse (selectField inputs.timestamp_type v) = some t)
    (ht : t.offset = some ot) (hc : inputs.parsed_cutoff.offset = some oc) :
    staleB parse inputs v = decide (t.instant < inputs.parsed_cutoff.instant) := by
  simp [staleB, hp, dtLt_aware t inputs.parsed_cutoff ot oc ht hc]

/-- Processing a good prefix accumulates its skip diagnostics and scheduled
deletions in source order, and the remainder of the loop is unaffected by
the prefix. -/
theorem filterVersions_append (parse : String → Option Datetime) (inputs : Inputs)
    (oc : Int) (hc : inputs.parsed_cutoff.offset = some oc)
    (pre rest : List VersionRecord)
    (hgood : ∀ v ∈ pre, goodRecord parse inputs v) :
    filterVersions parse inputs (pre ++ rest) =
      ⟨(pre.filter (unparseableB parse inputs)).map (fun v => v.id) ++
        (filterVersions parse inputs rest).skipped,
       (pre.filter (staleB parse inputs)).map (fun v => v.id) ++
        (filterVersions parse inputs rest).scheduled,
       (filterVersions parse inputs rest).error⟩ := by
  induction pre with
  | nil => simp
  | cons v pre ih =>
    have hv := hgood v (List.mem_cons_self v pre)
    have hrest : ∀ w ∈ pre, goodRecord parse inputs w :=
      fun w hw => hgood w (List.mem_cons_of_mem v hw)
    rcases hv with hnone | ⟨t, hsome, hts⟩
    · have hunp : unparseableB parse inputs v = true := by simp [unparseableB, hnone]
      have hst : staleB parse inputs v = false := by simp [staleB, hnone]
      simp [filterVersions, hnone, List.filter_cons, hunp, hst, ih hrest]
    · obtain ⟨ot, hot⟩ := Option.isSome_iff_exists.mp hts
      have hdt := dtLt_aware t inputs.parsed_cutoff ot oc hot hc
      have hunp : unparseableB parse inputs v = false := by simp [unparseableB, hsome]
      have hst := staleB_eq parse inputs v t ot oc hsome hot hc
      by_cases hlt : t.instant < inputs.parsed_cutoff.instant
      · simp [filterVersions, hsome, hdt, hlt, List.filter_cons, hunp, hst, ih hrest]
      · simp [filterVersions, hsome, hdt, hlt, List.filter_cons, hunp, hst, ih hrest]

/-- On a list of good records the loop completes: every unparseable record
is skipped, every stale record is scheduled, and nothing aborts. -/
theorem filterVersions_good (parse : String → Option Datetime) (inputs : Inputs)
    (oc : Int) (hc : inputs.parsed_cutoff.offset = some oc)
    (versions : List VersionRecord)
    (hgood : ∀ v ∈ versions, goodRecord parse inputs v) :
    filterVersions parse inputs versions =
      ⟨(versions.filter (unparseableB parse inputs)).map (fun v => v.id),
       (versions.filter (staleB parse inputs)).map (fun v => v.id),
       none⟩ := by
  have h := filterVersions_append parse inputs oc hc versions [] hgood
  simpa [filterVersions] using h

/-! ## Claim theorems: the version filter (C1, C3, C9) -/

/-- C1: for every configuration whose cutoff is timezone-aware and every
version list whose selected timestamps all resolve (to aware instants, per
the resolver contract), exactly the records whose resolved instant is
strictly earlier than the cutoff are scheduled for deletion — the
scheduled list is precisely the stale filter, nothing is skipped, nothing
aborts — and a record is stale exactly when its resolved instant is
strictly below the cutoff instant, so equal-to-cutoff records are never
deleted. -/
theorem claim_C1_stale_exactly (parse : String → Option Datetime) (inputs : Inputs)
    (versions : List VersionRecord)
    (hc : inputs.parsed_cutoff.offset.isSome)
    (hres : ∀ v ∈ versions, ∃ t, parse (selectField inputs.timestamp_type v) = some t ∧
      t.offset.isSome) :
    get_and_delete_old_versions parse inputs (Except.ok versions) =
      ⟨[], (versions.filter (staleB parse inputs)).map (fun v => v.id), none⟩ ∧
    ∀ v ∈ versions, ∀ t, parse (selectField inputs.timestamp_type v) = some t →
      (staleB parse inputs v = true ↔ t.instant < inputs.parsed_cutoff.instant) := by
  obtain ⟨oc, hoc⟩ := Option.isSome_iff_exists.mp hc
  constructor
  · have hgood : ∀ v ∈ versions, goodRecord parse inputs v :=
      fun v hv => Or.inr (hres v hv)
    have hnil : versions.filter (unparseableB parse inputs) = [] := by
      rw [List.filter_eq_nil_iff]
      intro v hv
      obtain ⟨t, ht, _⟩ := hres v hv
      simp [unparseableB, ht]
    simp [get_and_delete_old_versions,
      filterVersions_good parse inputs oc hoc versions hgood, hnil]
  · intro v hv t ht
    obtain ⟨t2, ht2, hts2⟩ := hres v hv
    rw [ht] at ht2
    obtain rfl : t = t2 := by injection ht2
    obtain ⟨ot, hot⟩ := Option.isSome_iff_exists.mp hts2
    simp [staleB_eq parse inputs v t ot oc ht hot hoc]

/-- Closed instance of C1: cutoff at instant 100 UTC; version 1 resolves to
50 (stale), version 2 to 150 (fresh), version 4 to exactly 100 (boundary,
not stale): only version 1 is scheduled. -/
theorem claim_C1_stale_exactly_witness :
    get_and_delete_old_versions
      (fun s => if s = "t50" then some ⟨50, some 0⟩
        else if s = "t150" then some ⟨150, some 0⟩
        else if s = "t100" then some ⟨100, some 0⟩ else none)
      ⟨⟨100, some 0⟩, TimestampType.updated_at, AccountType.personal, none⟩
      (Except.ok [⟨1, "t50", ""⟩, ⟨2, "t150", ""⟩, ⟨4, "t100", ""⟩]) =
      ⟨[], [1], none⟩ := by
  rw [(claim_C1_stale_exactly
    (fun s => if s = "t50" then some ⟨50, some 0⟩
      else if s = "t150" then some ⟨150, some 0⟩
      else if s = "t100" then some ⟨100, some 0⟩ else none)
    ⟨⟨100, some 0⟩, TimestampType.updated_at, AccountType.personal, none⟩
    [⟨1, "t50", ""⟩, ⟨2, "t150", ""⟩, ⟨4, "t100", ""⟩]
    rfl
    (by intro v hv; fin_cases hv
        · exact ⟨⟨50, some 0⟩, rfl, rfl⟩
        · exact ⟨⟨150, some 0⟩, rfl, rfl⟩
        · exact ⟨⟨100, some 0⟩, rfl, rfl⟩)).1]
  decide

/-- C3: with an aware cutoff, a record whose selected timestamp fails to
resolve is skipped — its id appears in the skip diagnostics, no deletion is
scheduled for it — while the scheduled list is still exactly the stale
records of the whole list, and the loop does not abort (no batch
failure). -/
theorem claim_C3_unparseable_skipped (parse : String → Option Datetime)
    (inputs : Inputs) (versions : List VersionRecord) (v0 : VersionRecord)
    (hc : inputs.parsed_cutoff.offset.isSome)
    (hgood : ∀ v ∈ versions, goodRecord parse inputs v)
    (hv0 : v0 ∈ versions)
    (hunp : parse (selectField inputs.timestamp_type v0) = none)
    (hids : (versions.map fun v => v.id).Nodup) :
    get_and_delete_old_versions parse inputs (Except.ok versions) =
      ⟨(versions.filter (unparseableB parse inputs)).map (fun v => v.id),
       (versions.filter (staleB parse inputs)).map (fun v => v.id), none⟩ ∧
    v0.id ∈ (versions.filter (unparseableB parse inputs)).map (fun v => v.id) ∧
    v0.id ∉ (versions.filter (staleB parse inputs)).map (fun v => v.id) := by
  obtain ⟨oc, hoc⟩ := Option.isSome_iff_exists.mp hc
  refine ⟨?_, ?_, ?_⟩
  · simp [get_and_delete_old_versions,
      filterVersions_good parse inputs oc hoc versions hgood]
  · exact List.mem_map.mpr ⟨v0, List.mem_filter.mpr ⟨hv0, by simp [unparseableB, hunp]⟩, rfl⟩
  · intro hmem
    obtain ⟨v1, hv1, hid⟩ := List.mem_map.mp hmem
    have hv1m := (List.mem_filter.mp hv1).1
    have hv1s := (List.mem_filter.mp hv1).2
    have : v1 = v0 := List.inj_on_of_nodup_map hids hv1m hv0 hid
    rw [this] at hv1s
    simp [staleB, hunp] at hv1s

/-- Closed instance of C3: id 3 is unparseable and skipped, stale id 1 is
still scheduled, fresh id 2 untouched, no abort. -/
theorem claim_C3_unparseable_skipped_witness :
    get_and_delete_old_versions
      (fun s => if s = "t50" then some ⟨50, some 0⟩
        else if s = "t150" then some ⟨150, some 0⟩ else none)
      ⟨⟨100, some 0⟩, TimestampType.updated_at, AccountType.personal, none⟩
      (Except.ok [⟨1, "t50", ""⟩, ⟨3, "bogus", ""⟩, ⟨2, "t150", ""⟩]) =
      ⟨[3], [1], none⟩ := by
  rw [(claim_C3_unparseable_skipped
    (fun s => if s = "t50" then some ⟨50, some 0⟩
      else if s = "t150" then some ⟨150, some 0⟩ else none)
    ⟨⟨100, some 0⟩, TimestampType.updated_at, AccountType.personal, none⟩
    [⟨1, "t50", ""⟩, ⟨3, "bogus", ""⟩, ⟨2, "t150", ""⟩]
    ⟨3, "bogus", ""⟩
    rfl
    (by intro v hv; fin_cases hv
        · exact Or.inr ⟨⟨50, some 0⟩, rfl, rfl⟩
        · exact Or.inl rfl
        · exact Or.inr ⟨⟨150, some 0⟩, rfl, rfl⟩)
    (by decide)
    rfl
    (by decide)).1]
  decide

/-- C9: a record whose selected timestamp resolves to a timezone-naive
datetime makes the staleness comparison raise `TypeError` against the
(always aware) cutoff: the whole image's processing aborts, the record is
neither skipped nor classified (it contributes to neither list), and no
record after it is processed — only the good prefix's diagnostics and
scheduled deletions remain. -/
theorem claim_C9_naive_timestamp_aborts (parse : String → Option Datetime)
    (inputs : Inputs) (pre post : List VersionRecord) (u : VersionRecord)
    (t : Datetime)
    (hc : inputs.parsed_cutoff.offset.isSome)
    (hgood : ∀ v ∈ pre, goodRecord parse inputs v)
    (hu : parse (selectField inputs.timestamp_type u) = some t)
    (hnaive : t.offset = none) :
    get_and_delete_old_versions parse inputs (Except.ok (pre ++ u :: post)) =
      ⟨(pre.filter (unparseableB parse inputs)).map (fun v => v.id),
       (pre.filter (staleB parse inputs)).map (fun v => v.id),
       some ProcError.compareTypeError⟩ := by
  obtain ⟨oc, hoc⟩ := Option.isSome_iff_exists.mp hc
  have habort : filterVersions parse inputs (u :: post) =
      ⟨[], [], some ProcError.compareTypeError⟩ := by
    simp [filterVersions, hu, dtLt_naive_aware t inputs.parsed_cutoff hnaive (by simp [hoc])]
  simp [get_and_delete_old_versions,
    filterVersions_append parse inputs oc hoc pre (u :: post) hgood, habort]

/-- Closed instance of C9: stale id 1 is scheduled before naive id 5
aborts processing; id 5 is neither skipped nor scheduled and id 2 (after
it) is never reached. -/
theorem claim_C9_naive_timestamp_aborts_witness :
    get_and_delete_old_versions
      (fun s => if s = "t50" then some ⟨50, some 0⟩
        else if s = "naive" then some ⟨10, none⟩ else none)
      ⟨⟨100, some 0⟩, TimestampType.updated_at, AccountType.personal, none⟩
      (Except.ok [⟨1, "t50", ""⟩, ⟨5, "naive", ""⟩, ⟨2, "t50", ""⟩]) =
      ⟨[], [1], some ProcError.compareTypeError⟩ := by
  have h := claim_C9_naive_timestamp_aborts
    (fun s => if s = "t50" then some ⟨50, some 0⟩
      else if s = "naive" then some ⟨10, none⟩ else none)
    ⟨⟨100, some 0⟩, TimestampType.updated_at, AccountType.personal, none⟩
    [⟨1, "t50", ""⟩] [⟨2, "t50", ""⟩] ⟨5, "naive", ""⟩ ⟨10, none⟩
    rfl
    (by intro v hv; fin_cases hv
        exact Or.inr ⟨⟨50, some 0⟩, rfl, rfl⟩)
    rfl
    rfl
  rw [List.singleton_append] at h
  rw [h]
  decide

/-! ## Claim theorems: input validation (C4, C5) and fail-fast (C8) -/

/-- C4: whenever the cutoff string resolves to an instant without an
associated UTC offset, validation fails with `MissingTimezone`, whatever
the account-type, org-name and timestamp-type arguments are, and no
configuration is produced. -/
theorem claim_C4_missing_timezone (parse : String → Option Datetime)
    (account_type org_name timestamp_type cut_off : String) (tm : Int)
    (hp : parse cut_off = some ⟨tm, none⟩) :
    validate_inputs parse account_type org_name timestamp_type cut_off =
      Except.error ValidationError.missingTimezone := by
  simp [validate_inputs, hp]

/-- Closed instance of C4: a naive cutoff is rejected even with valid
`personal` arguments. -/
theorem claim_C4_missing_timezone_witness :
    validate_inputs (fun _ => some ⟨0, none⟩) "personal" "x" "updated_at" "c" =
      Except.error ValidationError.missingTimezone :=
  claim_C4_missing_timezone (fun _ => some ⟨0, none⟩) "personal" "x" "updated_at" "c" 0 rfl

/-- C5: with a resolvable aware cutoff, account type `org` with an empty
org name fails with `MissingOrgName`; and every successfully produced
configuration has its organization name present exactly when its account
type is `org` — in particular a supplied org name is discarded whenever the
raw account type is not `"org"`. -/
theorem claim_C5_org_name (parse : String → Option Datetime)
    (account_type org_name timestamp_type cut_off : String) :
    (∀ d, parse cut_off = some d → d.offset.isSome →
      account_type = "org" → org_name = "" →
      validate_inputs parse account_type org_name timestamp_type cut_off =
        Except.error ValidationError.missingOrgName) ∧
    (∀ cfg, validate_inputs parse account_type org_name timestamp_type cut_off =
        Except.ok cfg →
      ((cfg.org_name.isSome ↔ cfg.account_type = AccountType.org) ∧
        (account_type ≠ "org" → cfg.org_name = none))) := by
  constructor
  · intro d hp hs hao hon
    obtain ⟨o, ho⟩ := Option.isSome_iff_exists.mp hs
    simp [validate_inputs, hp, ho, hao, hon]
  · intro cfg h
    unfold validate_inputs at h
    split at h
    · exact absurd h (by simp)
    · split at h
      · exact absurd h (by simp)
      · split at h
        · exact absurd h (by simp)
        · rename_i hnotorg
          split at h
          · exact absurd h (by simp)
          · split at h
            · exact absurd h (by simp)
            · rename_i at_ hat
              obtain rfl : _ = cfg := by injection h
              by_cases hao : account_type = "org"
              · have : at_ = AccountType.org := by
                  rw [hao] at hat
                  simp [AccountType.fromStr] at hat
                  exact hat.symm
                subst this
                simp [hao]
              · have hne : at_ ≠ AccountType.org := by
                  intro hcon
                  subst hcon
                  exact hao (AccountType.fromStr_eq_org hat)
                simp [hao, hne]

/-- Closed instance of C5: `org` with empty org name is rejected, and a
`personal` run discards a supplied org name. -/
theorem claim_C5_org_name_witness :
    validate_inputs (fun _ => some ⟨0, some 0⟩) "org" "" "updated_at" "c" =
      Except.error ValidationError.missingOrgName ∧
    (∀ cfg, validate_inputs (fun _ => some ⟨0, some 0⟩) "personal" "x" "updated_at" "c" =
        Except.ok cfg → cfg.org_name = none) :=
  ⟨(claim_C5_org_name (fun _ => some ⟨0, some 0⟩) "org" "" "updated_at" "c").1
      ⟨0, some 0⟩ rfl rfl rfl rfl,
    fun cfg h =>
      ((claim_C5_org_name (fun _ => some ⟨0, some 0⟩) "personal" "x" "updated_at" "c").2
        cfg h).2 (by decide)⟩

/-- C8: whenever input validation fails (with any of its errors), `main`
propagates that error before the HTTP client is opened: the run performs
no registry operation at all — no listing and no deletion. -/
theorem claim_C8_validation_aborts (parse : String → Option Datetime)
    (listings : ImageName → Except Unit (List VersionRecord))
    (account_type org_name image_names timestamp_type cut_off : String)
    (e : ValidationError)
    (hval : validate_inputs parse account_type org_name timestamp_type cut_off =
      Except.error e) :
    main parse listings account_type org_name image_names timestamp_type cut_off =
      Except.error e ∧
    mainOps parse listings account_type org_name image_names timestamp_type cut_off =
      [] := by
  refine ⟨by simp [main, hval], ?_⟩
  simp [mainOps, main, hval]

/-- Closed instance of C8: an unparseable cutoff aborts the run with
`InvalidCutoff` and zero registry operations, even though images were
supplied and listings would succeed. -/
theorem claim_C8_validation_aborts_witness :
    main (fun _ => none) (fun _ => Except.ok [⟨1, "x", "y"⟩]) "personal" "" "a,b"
        "updated_at" "never" =
      Except.error ValidationError.invalidCutoff ∧
    mainOps (fun _ => none) (fun _ => Except.ok [⟨1, "x", "y"⟩]) "personal" "" "a,b"
        "updated_at" "never" = [] :=
  claim_C8_validation_aborts (fun _ => none) (fun _ => Except.ok [⟨1, "x", "y"⟩])
    "personal" "" "a,b" "updated_at" "never" ValidationError.invalidCutoff rfl

/-! ## Claim theorems: the batch (C7) -/

/-- C7: if an image's listing call fails, that image's branch schedules no
deletion task and surfaces the listing failure; and any other image's batch
entry is a function of its own listing alone — replacing the failed image's
listing by anything else leaves every other image's entry unchanged. -/
theorem claim_C7_list_failure_isolated (parse : String → Option Datetime)
    (inputs : Inputs) (images : List ImageName)
    (listings listings2 : ImageName → Except Unit (List VersionRecord))
    (img : ImageName)
    (hfail : listings img = Except.error ())
    (hagree : ∀ j, j ≠ img → listings2 j = listings j) :
    get_and_delete_old_versions parse inputs (listings img) =
      ⟨[], [], some ProcError.listRequestFailed⟩ ∧
    (∀ (i : Nat) (imgI : ImageName), images[i]? = some imgI → imgI ≠ img →
      (run_batch parse inputs images listings2)[i]? =
        (run_batch parse inputs images listings)[i]?) := by
  constructor
  · simp [get_and_delete_old_versions, hfail]
  · intro i imgI hi hne
    simp [run_batch, List.getElem?_map _ images i, hi, hagree imgI hne]

/-- Image names and listing environments for the C7 instance: image `a`'s
listing fails, image `b`'s succeeds; `lsW2` repairs `a`'s listing and is
otherwise identical. -/
def imgA : ImageName := ⟨['a'], ['a']⟩

def imgB : ImageName := ⟨['b'], ['b']⟩

def lsW : ImageName → Except Unit (List VersionRecord) :=
  fun j => if j = imgA then Except.error () else Except.ok [⟨7, "t", ""⟩]

def lsW2 : ImageName → Except Unit (List VersionRecord) :=
  fun j => if j = imgA then Except.ok [] else lsW j

/-- Closed instance of C7: image `a`'s failed listing yields no scheduled
deletions and a surfaced failure, while image `b`'s batch entry is the same
whether image `a`'s listing fails or not. -/
theorem claim_C7_list_failure_isolated_witness :
    get_and_delete_old_versions (fun _ => none)
        ⟨⟨0, some 0⟩, TimestampType.updated_at, AccountType.personal, none⟩ (lsW imgA) =
      ⟨[], [], some ProcError.listRequestFailed⟩ ∧
    (run_batch (fun _ => none)
        ⟨⟨0, some 0⟩, TimestampType.updated_at, AccountType.personal, none⟩
        [imgA, imgB] lsW2)[1]? =
      (run_batch (fun _ => none)
        ⟨⟨0, some 0⟩, TimestampType.updated_at, AccountType.personal, none⟩
        [imgA, imgB] lsW)[1]? := by
  have h := claim_C7_list_failure_isolated (fun _ => none)
    ⟨⟨0, some 0⟩, TimestampType.updated_at, AccountType.personal, none⟩
    [imgA, imgB] lsW lsW2 imgA (by simp [lsW])
    (fun j hj => by simp [lsW2, hj])
  exact ⟨h.1, h.2 1 imgB rfl (by decide)⟩

/-! ## Claim theorems: image-name parsing (C6, C10) -/

set_option maxRecDepth 10000 in
theorem safeChar_spec : ∀ b : Fin 256, isAlwaysSafe b.val = true →
    (Char.ofNat b.val).toNat = b.val ∧ Char.ofNat b.val ≠ '%' := by decide

theorem hexVal_hexUpper : ∀ n : Fin 16, hexVal (hexUpper n.val) = some n.val := by decide

theorem unquote_cons_ne (c : Char) (rest : List Char) (h : c ≠ '%') :
    unquote_to_bytes (c :: rest) = c.toNat :: unquote_to_bytes rest := by
  match rest with
  | [] => simp [unquote_to_bytes]
  | [d] => simp [unquote_to_bytes]
  | d :: e :: rest2 => simp [unquote_to_bytes, h]

theorem unquote_quoteByte (b : Nat) (hb : b < 256) (rest : List Char) :
    unquote_to_bytes (quoteByte b ++ rest) = b :: unquote_to_bytes rest := by
  by_cases hs : isAlwaysSafe b = true
  · have hspec := safeChar_spec ⟨b, hb⟩ hs
    have h1 : quoteByte b ++ rest = Char.ofNat b :: rest := by simp [quoteByte, hs]
    rw [h1, unquote_cons_ne _ _ hspec.2, hspec.1]
  · have h16 : b / 16 < 16 := by omega
    have hm : b % 16 < 16 := by omega
    have hv1 := hexVal_hexUpper ⟨b / 16, h16⟩
    have hv2 := hexVal_hexUpper ⟨b % 16, hm⟩
    have h1 : quoteByte b ++ rest =
        '%' :: hexUpper (b / 16) :: hexUpper (b % 16) :: rest := by simp [quoteByte, hs]
    rw [h1]
    simp [unquote_to_bytes, hv1, hv2]
    omega

/-- Percent-decoding inverts `quote_from_bytes` on byte lists. -/
theorem unquote_quote_from_bytes (bs : List Nat) (h : ∀ b ∈ bs, b < 256) :
    unquote_to_bytes (quote_from_bytes bs) = bs := by
  induction bs with
  | nil => simp [quote_from_bytes, unquote_to_bytes]
  | cons b bs ih =>
    have hb : b < 256 := h b (List.mem_cons_self b bs)
    have hq : quote_from_bytes (b :: bs) = quoteByte b ++ quote_from_bytes bs := by
      simp [quote_from_bytes]
    rw [hq, unquote_quoteByte b hb, ih (fun x hx => h x (List.mem_cons_of_mem b hx))]

theorem utf8EncodeChar_lt (c : Char) : ∀ b ∈ utf8EncodeChar c, b < 256 := by
  intro b hb
  have hval : c.toNat < 1114112 := by
    have heq : c.toNat = c.val.toNat := rfl
    rcases c.valid with h | ⟨h1, h2⟩ <;> omega
  by_cases h1 : c.toNat < 128
  · simp [utf8EncodeChar, h1] at hb
    omega
  · by_cases h2 : c.toNat < 2048
    · simp [utf8EncodeChar, h1, h2] at hb
      rcases hb with rfl | rfl <;> omega
    · by_cases h3 : c.toNat < 65536
      · simp [utf8EncodeChar, h1, h2, h3] at hb
        rcases hb with rfl | rfl | rfl <;> omega
      · simp [utf8EncodeChar, h1, h2, h3] at hb
        rcases hb with rfl | rfl | rfl | rfl <;> omega

theorem utf8Bytes_lt (cs : List Char) : ∀ b ∈ utf8Bytes cs, b < 256 := by
  intro b hb
  rw [utf8Bytes, List.mem_flatten] at hb
  obtain ⟨l, hl, hbl⟩ := hb
  obtain ⟨c, _, rfl⟩ := List.mem_map.mp hl
  exact utf8EncodeChar_lt c b hbl

theorem splitCommas_ne_nil (cs : List Char) : splitCommas cs ≠ [] := by
  induction cs with
  | nil => simp [splitCommas]
  | cons c rest ih =>
    by_cases hc : c = ','
    · simp [splitCommas, hc]
    · cases hsr : splitCommas rest with
      | nil => exact absurd hsr ih
      | cons seg segs => simp [splitCommas, hc, hsr]

theorem splitCommas_length (cs : List Char) :
    (splitCommas cs).length = cs.count ',' + 1 := by
  induction cs with
  | nil => rfl
  | cons c rest ih =>
    by_cases hc : c = ','
    · subst hc
      simp [splitCommas, List.count_cons, ih]
    · cases hsr : splitCommas rest with
      | nil => exact absurd hsr (splitCommas_ne_nil rest)
      | cons seg segs =>
        have hstep : splitCommas (c :: rest) = (c :: seg) :: segs := by
          simp [splitCommas, hc, hsr]
        rw [hstep] at *
        have hlen := ih
        rw [hsr] at hlen
        simp at hlen
        simp [List.count_cons, hc]
        omega

/-- C6: splitting a raw image-names string on commas yields one `ImageName`
per comma-separated segment (one more than the number of commas), the
segment stripped of surrounding whitespace becomes `value` with `encoded`
its percent-encoding, and percent-decoding `encoded` recovers exactly the
UTF-8 bytes of `value`. -/
theorem claim_C6_image_names_roundtrip (s : List Char) (i : Nat) :
    (parse_image_names s).length = (splitCommas s).length ∧
    (splitCommas s).length = s.count ',' + 1 ∧
    (parse_image_names s)[i]? = ((splitCommas s)[i]?).map
      (fun seg => ⟨trimChars seg, quote_from_bytes (utf8Bytes (trimChars seg))⟩) ∧
    unquote_to_bytes (((parse_image_names s)[i]?).getD ⟨[], []⟩).encoded =
      utf8Bytes (((parse_image_names s)[i]?).getD ⟨[], []⟩).value := by
  have hmap : (parse_image_names s)[i]? = ((splitCommas s)[i]?).map
      (fun seg => (⟨trimChars seg, quote_from_bytes (utf8Bytes (trimChars seg))⟩ : ImageName)) := by
    rw [parse_image_names]
    exact List.getElem?_map _ _ i
  refine ⟨by simp [parse_image_names], splitCommas_length s, hmap, ?_⟩
  cases hsi : (splitCommas s)[i]? with
  | none => rw [hmap, hsi]; simp [unquote_to_bytes, utf8Bytes]
  | some seg =>
    rw [hmap, hsi]
    exact unquote_quote_from_bytes (utf8Bytes (trimChars seg)) (utf8Bytes_lt (trimChars seg))

/-- C10: `parse_image_names` never returns an empty list, and on the empty
input it returns exactly one `ImageName` whose raw and encoded forms are
both empty — empty input is not rejected at parse time. -/
theorem claim_C10_nonempty (s : List Char) :
    1 ≤ (parse_image_names s).length ∧
    parse_image_names [] = [⟨[], []⟩] := by
  constructor
  · rw [parse_image_names, List.length_map]
    cases h : splitCommas s with
    | nil => exact absurd h (splitCommas_ne_nil s)
    | cons a l => simp
  · rfl

end ContainerRetention
